import Mathlib

/-!
Verification of the core logic of `stampt` (stampt.py): filename allocation,
note saving, timestamp parsing/formatting, search/newest ordering, the
interactive capture loop, and the blank-line decision prompt.

The filesystem is modelled as the list of file names existing in the notes
directory; a note file is a (name, content) pair.  Machine text is modelled
as Lean `String` (a list of characters); Python's `str.strip`/`str.lower`
are modelled on the ASCII whitespace/letter range they act on here.
-/

set_option maxHeartbeats 1000000
set_option maxRecDepth 10000

namespace Stampt

/-- Whitespace test used by Python's `str.strip()` (the ASCII whitespace set). -/
def isPySpace (c : Char) : Bool :=
  c = ' ' || c = '\t' || c = '\n' || c = '\r' || c = '\x0b' || c = '\x0c'

/-- Python `text.strip()`: drop leading and trailing whitespace characters. -/
def pystrip (s : String) : String :=
  String.mk (((s.data.dropWhile isPySpace).reverse.dropWhile isPySpace).reverse)

/-- Python `text.lower()` (ASCII case mapping). -/
def pylower (s : String) : String :=
  String.mk (s.data.map Char.toLower)

/-- The candidate name probed by `_free_filename` at version index `i`,
the f-string `f"{base}_v{i}.md"` from stampt.py line 63. -/
def vname (base : String) (i : Nat) : String :=
  base ++ "_v" ++ toString i ++ ".md"

/-- `_free_filename` (stampt.py lines 57-66).  `fs` is the list of file names
that exist in the directory (`path.exists()` is membership in `fs`).
Returns the first free candidate among `base.md`, `base_v1.md`, …,
`base_v999.md`; `none` models the `RuntimeError("Too many versions this
second!")` raised when all candidates exist. -/
def _free_filename (fs : List String) (base : String) : Option String :=
  if fs.contains (base ++ ".md") then
    match (List.range' 1 999).find? (fun i => !fs.contains (vname base i)) with
    | some i => some (vname base i)
    | none => none
  else
    some (base ++ ".md")

/-- Outcome of `save_note`: `empty` is the "Cannot save empty note" warning
path (returns `None`, writes nothing); `saved p c` means a new file named `p`
with content `c` was written and `p` returned; `tooMany` is the propagated
`RuntimeError` from `_free_filename`. -/
inductive SaveResult where
  | empty : SaveResult
  | saved (path content : String) : SaveResult
  | tooMany : SaveResult
deriving DecidableEq

/-- `save_note` (stampt.py lines 69-84), with the current-timestamp string
`_now_ts()` passed explicitly as `ts`.  The Python guard is
`if not text or not text.strip()`. -/
def save_note (fs : List String) (ts text : String) : SaveResult :=
  if text = "" ∨ pystrip text = "" then
    .empty
  else
    match _free_filename fs ts with
    | some p => .saved p (pystrip text ++ "\n")
    | none => .tooMany

theorem pystrip_empty : pystrip "" = "" := rfl

theorem free_filename_not_exists {fs : List String} {base p : String}
    (h : _free_filename fs base = some p) : fs.contains p = false := by
  unfold _free_filename at h
  by_cases hb : fs.contains (base ++ ".md")
  · rw [if_pos hb] at h
    cases hfind : (List.range' 1 999).find? (fun i => !fs.contains (vname base i)) with
    | none => rw [hfind] at h; exact absurd h (by simp)
    | some i =>
      rw [hfind] at h
      have hp := List.find?_some hfind
      simp only [Option.some.injEq] at h
      subst h
      simpa using hp
  · rw [if_neg hb] at h
    simp only [Option.some.injEq] at h
    subst h
    exact Bool.eq_false_iff.mpr hb

theorem free_filename_isSome {fs : List String} {base : String}
    (hfree : fs.contains (base ++ ".md") = false ∨
      ∃ i, 1 ≤ i ∧ i ≤ 999 ∧ fs.contains (vname base i) = false) :
    ∃ p, _free_filename fs base = some p := by
  unfold _free_filename
  by_cases hb : fs.contains (base ++ ".md")
  · rw [if_pos hb]
    rcases hfree with h | ⟨i, h1, h2, h3⟩
    · rw [hb] at h; exact absurd h (by simp)
    · have hmem : i ∈ List.range' 1 999 := by
        rw [List.mem_range']
        exact ⟨i - 1, by omega, by omega⟩
      have hsome : ((List.range' 1 999).find?
          (fun i => !fs.contains (vname base i))).isSome := by
        rw [List.find?_isSome]
        exact ⟨i, hmem, by simpa using h3⟩
      cases hfind : (List.range' 1 999).find? (fun i => !fs.contains (vname base i)) with
      | none => rw [hfind] at hsome; simp at hsome
      | some j => exact ⟨vname base j, rfl⟩
  · rw [if_neg hb]
    exact ⟨base ++ ".md", rfl⟩

/-- C1: for text that is non-empty after trimming, `save_note` writes a new
file (one not already present in the directory) whose content is exactly
`text.strip() + "\n"` and returns its path; for empty or all-whitespace text
it writes nothing and returns nothing.  The side condition `hfree` says the
current second's candidate names are not already exhausted. -/
theorem save_note_spec (fs : List String) (ts text : String)
    (hfree : fs.contains (ts ++ ".md") = false ∨
      ∃ i, 1 ≤ i ∧ i ≤ 999 ∧ fs.contains (vname ts i) = false) :
    (pystrip text = "" → save_note fs ts text = .empty) ∧
    (pystrip text ≠ "" → ∃ p, save_note fs ts text = .saved p (pystrip text ++ "\n") ∧
      fs.contains p = false) := by
  constructor
  · intro h
    unfold save_note
    rw [if_pos (Or.inr h)]
  · intro h
    have htext : ¬(text = "" ∨ pystrip text = "") := by
      rintro (h1 | h1)
      · exact h (h1 ▸ pystrip_empty)
      · exact h h1
    obtain ⟨p, hp⟩ := @free_filename_isSome fs ts hfree
    refine ⟨p, ?_, free_filename_not_exists hp⟩
    unfold save_note
    rw [if_neg htext, hp]

theorem save_note_spec_witness :
    (pystrip " hi " = "" → save_note [] "t" " hi " = .empty) ∧
    (pystrip " hi " ≠ "" → ∃ p, save_note [] "t" " hi " = .saved p (pystrip " hi " ++ "\n") ∧
      List.contains [] p = false) :=
  save_note_spec [] "t" " hi " (Or.inl rfl)

/-- Decimal value of an ASCII digit character. -/
def dval (c : Char) : Nat := c.toNat - 48

/-- Two-digit field value as read by `strptime`. -/
def num2 (a b : Char) : Nat := 10 * dval a + dval b

/-- Four-digit `%Y` field value as read by `strptime`. -/
def num4 (a b c d : Char) : Nat :=
  1000 * dval a + 100 * dval b + 10 * dval c + dval d

/-- The regex `_TS = (\d\x7b4\x7d-\d\x7b2\x7d-\d\x7b2\x7d_\d\x7b2\x7d-\d\x7b2\x7d-\d\x7b2\x7d)`
(stampt.py line 88) tested against a 19-character candidate: the pattern is
fixed-width, four digit groups separated by the literal characters
`-`, `-`, `_`, `-`, `-`. -/
def isTSPattern : List Char → Bool
  | [y1, y2, y3, y4, q1, m1, m2, q2, d1, d2, q3, h1, h2, q4, i1, i2, q5, s1, s2] =>
    y1.isDigit && y2.isDigit && y3.isDigit && y4.isDigit && q1 == '-' &&
    m1.isDigit && m2.isDigit && q2 == '-' && d1.isDigit && d2.isDigit && q3 == '_' &&
    h1.isDigit && h2.isDigit && q4 == '-' && i1.isDigit && i2.isDigit && q5 == '-' &&
    s1.isDigit && s2.isDigit
  | _ => false

/-- `_TS.match(name)` (stampt.py line 93): `re.match` anchors at the start of
the string and the pattern is fixed-width, so the match succeeds exactly when
the first 19 characters fit the pattern, and `m.group(1)` is those
19 characters.  Nothing past position 19 is ever examined. -/
def matchTS (name : String) : Option (List Char) :=
  if isTSPattern (name.data.take 19) then some (name.data.take 19) else none

/-- A local calendar datetime truncated to second resolution. -/
structure Tm where
  year : Nat
  month : Nat
  day : Nat
  hour : Nat
  minute : Nat
  second : Nat
deriving DecidableEq

/-- Gregorian leap-year rule used by `datetime`. -/
def isLeap (y : Nat) : Bool :=
  y % 4 == 0 && (y % 100 != 0 || y % 400 == 0)

def daysInMonth (y m : Nat) : Nat :=
  if m = 2 then (if isLeap y then 29 else 28)
  else if m = 4 ∨ m = 6 ∨ m = 9 ∨ m = 11 then 30
  else 31

/-- The validity check performed by
`datetime.strptime(s, "%Y-%m-%d_%H-%M-%S")` on a 19-character candidate that
already fits the digit pattern: strptime's field patterns bound
month/day/hour/minute/second, and the `datetime` constructor rejects
out-of-range calendar days and year 0 (`ValueError`, caught on line 98). -/
def validTm (t : Tm) : Bool :=
  1 ≤ t.year && 1 ≤ t.month && t.month ≤ 12 && 1 ≤ t.day &&
  t.day ≤ daysInMonth t.year t.month && t.hour ≤ 23 && t.minute ≤ 59 && t.second ≤ 59

/-- `datetime.strptime(group, "%Y-%m-%d_%H-%M-%S")` on the 19 matched
characters: read the six numeric fields and validate them. -/
def strptimeTS : List Char → Option Tm
  | [y1, y2, y3, y4, _, m1, m2, _, d1, d2, _, h1, h2, _, i1, i2, _, s1, s2] =>
    if validTm ⟨num4 y1 y2 y3 y4, num2 m1 m2, num2 d1 d2,
                num2 h1 h2, num2 i1 i2, num2 s1 s2⟩ then
      some ⟨num4 y1 y2 y3 y4, num2 m1 m2, num2 d1 d2,
            num2 h1 h2, num2 i1 i2, num2 s1 s2⟩
    else
      none
  | _ => none

/-- Modelling of `.timestamp()` on second-truncated local datetimes: a
numeric key that is strictly monotone in (and injective on) the calendar
fields.  The program only compares and equates these values. -/
def tsKey (t : Tm) : Nat :=
  t.second + 60 * (t.minute + 60 * (t.hour + 24 * (t.day + 32 * (t.month + 13 * t.year))))

/-- `_parse_ts` (stampt.py lines 91-99): anchored fixed-width regex match,
then `strptime`, then `.timestamp()`; `None` when either step fails. -/
def _parse_ts (name : String) : Option Nat :=
  ((matchTS name).bind strptimeTS).map tsKey

/-- Zero-padded decimal rendering as produced by `strftime` field directives. -/
def padNum (w n : Nat) : String :=
  String.mk (List.replicate (w - (toString n).length) '0') ++ toString n

/-- `datetime.now().strftime("%Y-%m-%d_%H-%M-%S")` (stampt.py line 54) on the
local calendar fields of the current instant. -/
def formatTS (t : Tm) : String :=
  padNum 4 t.year ++ "-" ++ padNum 2 t.month ++ "-" ++ padNum 2 t.day ++ "_" ++
  padNum 2 t.hour ++ "-" ++ padNum 2 t.minute ++ "-" ++ padNum 2 t.second

theorem parse_ts_take19 {s t : String} (h : s.data.take 19 = t.data.take 19) :
    _parse_ts s = _parse_ts t := by
  unfold _parse_ts matchTS
  rw [h]

/-- C6: `_parse_ts` reads only a leading fixed-width window of the filename:
its result depends only on the first 19 characters, a valid 19-character
leading timestamp followed by an arbitrary suffix parses the same as the bare
timestamp, an invalid calendar value (month 13) yields `none`, and a pattern
that does not start at position 0 yields `none` even though it occurs later
in the name. -/
theorem parse_ts_leading_only :
    (∀ s t : String, s.data.take 19 = t.data.take 19 → _parse_ts s = _parse_ts t) ∧
    (∀ p suf : String, p.data.length = 19 → _parse_ts (p ++ suf) = _parse_ts p) ∧
    _parse_ts "2024-13-01_00-00-00.md" = none ∧
    _parse_ts "x2024-01-01_00-00-00.md" = none := by
  refine ⟨fun s t h => parse_ts_take19 h, fun p suf hlen => ?_, by decide, by decide⟩
  apply parse_ts_take19
  rw [String.data_append, ← hlen, List.take_left, hlen, List.take_of_length_le (by omega)]

theorem parse_ts_leading_only_witness :
    _parse_ts "2024-01-01_10-00-00.md" = _parse_ts "2024-01-01_10-00-00XY" ∧
    _parse_ts ("2024-01-01_10-00-00" ++ ".md") = _parse_ts "2024-01-01_10-00-00" :=
  ⟨parse_ts_leading_only.1 _ _ (by decide), parse_ts_leading_only.2.1 _ _ (by decide)⟩

theorem digitChar_isDigit (d : Nat) (h : d < 10) : (Nat.digitChar d).isDigit = true := by
  interval_cases d <;> decide

theorem dval_digitChar (d : Nat) (h : d < 10) : dval (Nat.digitChar d) = d := by
  interval_cases d <;> decide

theorem toDigitsCore_one (n : Nat) (h : n < 10) (fuel : Nat) (ds : List Char) :
    Nat.toDigitsCore 10 (fuel + 1) n ds = Nat.digitChar n :: ds := by
  unfold Nat.toDigitsCore
  have h1 : n % 10 = n := Nat.mod_eq_of_lt h
  have h2 : n / 10 = 0 := Nat.div_eq_of_lt h
  simp [h1, h2]

theorem toDigitsCore_two (n : Nat) (hl : 10 ≤ n) (h : n < 100) (fuel : Nat) (ds : List Char) :
    Nat.toDigitsCore 10 (fuel + 2) n ds =
      Nat.digitChar (n / 10) :: Nat.digitChar (n % 10) :: ds := by
  show Nat.toDigitsCore 10 (fuel + 1 + 1) n ds = _
  unfold Nat.toDigitsCore
  have hne : n / 10 ≠ 0 := by omega
  simp only [hne, if_false]
  rw [toDigitsCore_one (n / 10) (by omega) fuel]

theorem toDigitsCore_three (n : Nat) (hl : 100 ≤ n) (h : n < 1000) (fuel : Nat)
    (ds : List Char) :
    Nat.toDigitsCore 10 (fuel + 3) n ds =
      Nat.digitChar (n / 100) :: Nat.digitChar (n / 10 % 10) ::
        Nat.digitChar (n % 10) :: ds := by
  show Nat.toDigitsCore 10 (fuel + 2 + 1) n ds = _
  unfold Nat.toDigitsCore
  have hne : n / 10 ≠ 0 := by omega
  simp only [hne, if_false]
  rw [toDigitsCore_two (n / 10) (by omega) (by omega) fuel]
  have e1 : n / 10 / 10 = n / 100 := by omega
  have e2 : n / 10 % 10 = n / 10 % 10 := rfl
  rw [e1]

theorem toDigitsCore_four (n : Nat) (hl : 1000 ≤ n) (h : n < 10000) (fuel : Nat)
    (ds : List Char) :
    Nat.toDigitsCore 10 (fuel + 4) n ds =
      Nat.digitChar (n / 1000) :: Nat.digitChar (n / 100 % 10) ::
        Nat.digitChar (n / 10 % 10) :: Nat.digitChar (n % 10) :: ds := by
  show Nat.toDigitsCore 10 (fuel + 3 + 1) n ds = _
  unfold Nat.toDigitsCore
  have hne : n / 10 ≠ 0 := by omega
  simp only [hne, if_false]
  rw [toDigitsCore_three (n / 10) (by omega) (by omega) fuel]
  have e1 : n / 10 / 100 = n / 1000 := by omega
  have e2 : n / 10 / 10 = n / 100 := by omega
  rw [e1, e2]

theorem toString_digits_one (n : Nat) (h : n < 10) :
    toString n = String.mk [Nat.digitChar n] := by
  show Nat.repr n = _
  unfold Nat.repr Nat.toDigits
  rw [toDigitsCore_one n h]
  rfl

theorem toString_digits_two (n : Nat) (hl : 10 ≤ n) (h : n < 100) :
    toString n = String.mk [Nat.digitChar (n / 10), Nat.digitChar (n % 10)] := by
  show Nat.repr n = _
  unfold Nat.repr Nat.toDigits
  rw [show n + 1 = n - 1 + 2 by omega, toDigitsCore_two n hl h]
  rfl

theorem toString_digits_four (n : Nat) (hl : 1000 ≤ n) (h : n < 10000) :
    toString n = String.mk [Nat.digitChar (n / 1000), Nat.digitChar (n / 100 % 10),
      Nat.digitChar (n / 10 % 10), Nat.digitChar (n % 10)] := by
  show Nat.repr n = _
  unfold Nat.repr Nat.toDigits
  rw [show n + 1 = n - 3 + 4 by omega, toDigitsCore_four n hl h]
  rfl

theorem padNum_two (n : Nat) (h : n < 100) :
    padNum 2 n = String.mk [Nat.digitChar (n / 10), Nat.digitChar (n % 10)] := by
  unfold padNum
  by_cases h10 : 10 ≤ n
  · rw [toString_digits_two n h10 h]
    rfl
  · have h1 : n < 10 := by omega
    rw [toString_digits_one n h1]
    have hq : n / 10 = 0 := by omega
    have hm : n % 10 = n := by omega
    rw [hq, hm]
    rfl

theorem padNum_four (n : Nat) (hl : 1000 ≤ n) (h : n < 10000) :
    padNum 4 n = String.mk [Nat.digitChar (n / 1000), Nat.digitChar (n / 100 % 10),
      Nat.digitChar (n / 10 % 10), Nat.digitChar (n % 10)] := by
  unfold padNum
  rw [toString_digits_four n hl h]
  rfl

theorem num2_digitChar (n : Nat) (h : n < 100) :
    num2 (Nat.digitChar (n / 10)) (Nat.digitChar (n % 10)) = n := by
  unfold num2
  rw [dval_digitChar _ (by omega), dval_digitChar _ (by omega)]
  omega

theorem num4_digitChar (n : Nat) (h : n < 10000) :
    num4 (Nat.digitChar (n / 1000)) (Nat.digitChar (n / 100 % 10))
      (Nat.digitChar (n / 10 % 10)) (Nat.digitChar (n % 10)) = n := by
  unfold num4
  rw [dval_digitChar _ (by omega), dval_digitChar _ (by omega),
    dval_digitChar _ (by omega), dval_digitChar _ (by omega)]
  omega

theorem daysInMonth_le (y m : Nat) : daysInMonth y m ≤ 31 := by
  unfold daysInMonth
  split
  · split <;> omega
  · split <;> omega

/-- C3: round-trip of the timestamp codec at second resolution: parsing the
formatted timestamp of any valid calendar instant (with a four-digit year, as
`strftime`'s `%Y` zero-pads and `strptime`'s `%Y` reads exactly four digits)
yields back exactly that instant. -/
theorem parse_format_roundtrip (t : Tm) (hv : validTm t = true)
    (hy1 : 1000 ≤ t.year) (hy2 : t.year ≤ 9999) :
    _parse_ts (formatTS t) = some (tsKey t) := by
  obtain ⟨y, mo, dy, hr, mi, se⟩ := t
  simp only [validTm, Bool.and_eq_true, decide_eq_true_eq] at hv
  obtain ⟨⟨⟨⟨⟨⟨⟨hy, hm1⟩, hm2⟩, hd1⟩, hd2⟩, hh⟩, hmi⟩, hs⟩ := hv
  simp only at hy1 hy2 hd2
  have hdm := daysInMonth_le y mo
  have hdata : (formatTS ⟨y, mo, dy, hr, mi, se⟩).data =
      [Nat.digitChar (y / 1000), Nat.digitChar (y / 100 % 10), Nat.digitChar (y / 10 % 10),
       Nat.digitChar (y % 10), '-', Nat.digitChar (mo / 10), Nat.digitChar (mo % 10), '-',
       Nat.digitChar (dy / 10), Nat.digitChar (dy % 10), '_',
       Nat.digitChar (hr / 10), Nat.digitChar (hr % 10), '-',
       Nat.digitChar (mi / 10), Nat.digitChar (mi % 10), '-',
       Nat.digitChar (se / 10), Nat.digitChar (se % 10)] := by
    simp only [formatTS, padNum_four y hy1 (by omega), padNum_two mo (by omega),
      padNum_two dy (by omega), padNum_two hr (by omega), padNum_two mi (by omega),
      padNum_two se (by omega)]
    rfl
  unfold _parse_ts matchTS
  rw [hdata]
  rw [List.take_of_length_le (by simp)]
  have hpat : isTSPattern
      [Nat.digitChar (y / 1000), Nat.digitChar (y / 100 % 10), Nat.digitChar (y / 10 % 10),
       Nat.digitChar (y % 10), '-', Nat.digitChar (mo / 10), Nat.digitChar (mo % 10), '-',
       Nat.digitChar (dy / 10), Nat.digitChar (dy % 10), '_',
       Nat.digitChar (hr / 10), Nat.digitChar (hr % 10), '-',
       Nat.digitChar (mi / 10), Nat.digitChar (mi % 10), '-',
       Nat.digitChar (se / 10), Nat.digitChar (se % 10)] = true := by
    simp only [isTSPattern, digitChar_isDigit _ (by omega : y / 1000 < 10),
      digitChar_isDigit _ (by omega : y / 100 % 10 < 10),
      digitChar_isDigit _ (by omega : y / 10 % 10 < 10),
      digitChar_isDigit _ (by omega : y % 10 < 10),
      digitChar_isDigit _ (by omega : mo / 10 < 10),
      digitChar_isDigit _ (by omega : mo % 10 < 10),
      digitChar_isDigit _ (by omega : dy / 10 < 10),
      digitChar_isDigit _ (by omega : dy % 10 < 10),
      digitChar_isDigit _ (by omega : hr / 10 < 10),
      digitChar_isDigit _ (by omega : hr % 10 < 10),
      digitChar_isDigit _ (by omega : mi / 10 < 10),
      digitChar_isDigit _ (by omega : mi % 10 < 10),
      digitChar_isDigit _ (by omega : se / 10 < 10),
      digitChar_isDigit _ (by omega : se % 10 < 10)]
    rfl
  rw [hpat]
  simp only [if_true, Option.some_bind, strptimeTS]
  rw [num4_digitChar y (by omega), num2_digitChar mo (by omega),
    num2_digitChar dy (by omega), num2_digitChar hr (by omega),
    num2_digitChar mi (by omega), num2_digitChar se (by omega)]
  have hvt : validTm ⟨y, mo, dy, hr, mi, se⟩ = true := by
    simp only [validTm, Bool.and_eq_true, decide_eq_true_eq]
    exact ⟨⟨⟨⟨⟨⟨⟨by omega, hm1⟩, hm2⟩, hd1⟩, hd2⟩, hh⟩, hmi⟩, hs⟩
  rw [hvt]
  rfl

theorem parse_format_roundtrip_witness :
    _parse_ts (formatTS ⟨2024, 1, 1, 10, 0, 0⟩) = some (tsKey ⟨2024, 1, 1, 10, 0, 0⟩) :=
  parse_format_roundtrip ⟨2024, 1, 1, 10, 0, 0⟩ (by decide) (by decide) (by decide)

/-- A file in the notes directory: its name and its text content. -/
structure NoteFile where
  name : String
  content : String
deriving DecidableEq

def isPrefixB : List Char → List Char → Bool
  | [], _ => true
  | _ :: _, [] => false
  | a :: as, b :: bs => a == b && isPrefixB as bs

/-- Python `needle in hay` (substring containment) on character lists. -/
def substrB (ndl : List Char) : List Char → Bool
  | [] => ndl.isEmpty
  | b :: t => isPrefixB ndl (b :: t) || substrB ndl t

/-- The sort key the code uses for a file: its parsed filename timestamp
(`_parse_ts(f.name)`; only applied after filtering out unparsable names). -/
def tsOf (f : NoteFile) : Nat := (_parse_ts f.name).getD 0

/-- Whether `directory.glob("*.md")` lists the file: the fnmatch pattern
`*.md` matches exactly the names ending in `.md`. -/
def isMd (f : NoteFile) : Bool := isPrefixB (".md".data.reverse) f.name.data.reverse

/-- `search_notes` (stampt.py lines 114-138): a blank query short-circuits to
an empty result; otherwise the `.md` files whose lowercased content contains
the lowercased query are collected, files without a parsable leading
timestamp are dropped, and the remainder is sorted by parsed timestamp,
newest first. -/
def search_notes (dir : List NoteFile) (query : String) : List NoteFile :=
  if pystrip query = "" then []
  else
    (((dir.filter (fun f => isMd f)).filter
        (fun f => substrB (pylower query).data (pylower f.content).data)).filter
      (fun f => (_parse_ts f.name).isSome)).mergeSort (fun a b => tsOf b ≤ tsOf a)

/-- C4: `search_notes` returns exactly the `.md` files whose name parses to a
timestamp and whose content contains the query case-insensitively, in
descending order of parsed timestamp, and a blank query returns the empty
list (the code returns before any directory access). -/
theorem search_notes_spec (dir : List NoteFile) (query : String) :
    (pystrip query = "" → search_notes dir query = []) ∧
    (pystrip query ≠ "" →
      (search_notes dir query).Perm
        (dir.filter (fun f => (_parse_ts f.name).isSome &&
          substrB (pylower query).data (pylower f.content).data && isMd f)) ∧
      (search_notes dir query).Pairwise (fun a b => tsOf b ≤ tsOf a)) := by
  constructor
  · intro h
    simp [search_notes, h]
  · intro h
    unfold search_notes
    rw [if_neg h]
    constructor
    · refine (List.mergeSort_perm _ _).trans ?_
      rw [List.filter_filter, List.filter_filter]
    · have hp := @List.sorted_mergeSort NoteFile
        (fun a b : NoteFile => decide (tsOf b ≤ tsOf a))
        (fun a b c hab hbc => by
          simp only [decide_eq_true_eq] at *
          omega)
        (fun a b => by
          simp only [Bool.or_eq_true, decide_eq_true_eq]
          omega)
        ((dir.filter (fun f => isMd f)).filter
            (fun f => substrB (pylower query).data (pylower f.content).data) |>.filter
          (fun f => (_parse_ts f.name).isSome))
      exact hp.imp (fun hab => by simpa using hab)

theorem search_notes_spec_witness :
    (search_notes [⟨"2024-01-01_10-00-00.md", "alpha"⟩] "alpha").Perm
      ([⟨"2024-01-01_10-00-00.md", "alpha"⟩] |>.filter
        (fun f => (_parse_ts f.name).isSome &&
          substrB (pylower "alpha").data (pylower f.content).data && isMd f)) ∧
    (search_notes [⟨"2024-01-01_10-00-00.md", "alpha"⟩] "alpha").Pairwise
      (fun a b => tsOf b ≤ tsOf a) :=
  (search_notes_spec [⟨"2024-01-01_10-00-00.md", "alpha"⟩] "alpha").2 (by decide)

/-- Python `max(iterable, key=...)`: a left fold that keeps the first
element whose key is maximal (a later element replaces the current one only
when its key is strictly greater). -/
def pymax (key : NoteFile → Nat) (x : NoteFile) (xs : List NoteFile) : NoteFile :=
  xs.foldl (fun b a => if key b < key a then a else b) x

/-- `newest_note` (stampt.py lines 102-111): among the `.md` files whose name
has a parsable timestamp, one with the maximal parsed timestamp; `None` when
there is no such file. -/
def newest_note (dir : List NoteFile) : Option NoteFile :=
  match (dir.filter (fun f => isMd f)).filter (fun f => (_parse_ts f.name).isSome) with
  | [] => none
  | x :: xs => some (pymax tsOf x xs)

theorem pymax_spec (key : NoteFile → Nat) :
    ∀ (xs : List NoteFile) (x : NoteFile),
      (pymax key x xs = x ∨ pymax key x xs ∈ xs) ∧
      key x ≤ key (pymax key x xs) ∧ ∀ y ∈ xs, key y ≤ key (pymax key x xs) := by
  intro xs
  induction xs with
  | nil =>
    intro x
    exact ⟨Or.inl rfl, Nat.le_refl _, by simp⟩
  | cons a xs ih =>
    intro x
    have hfold : pymax key x (a :: xs) = pymax key (if key x < key a then a else x) xs := by
      unfold pymax
      rw [List.foldl_cons]
    obtain ⟨h1, h2, h3⟩ := ih (if key x < key a then a else x)
    rw [hfold]
    refine ⟨?_, ?_, ?_⟩
    · rcases h1 with h | h
      · rw [h]
        split
        · right
          exact List.mem_cons_self a xs
        · left
          rfl
      · right
        exact List.mem_cons_of_mem _ h
    · refine Nat.le_trans ?_ h2
      split <;> omega
    · intro y hy
      rcases List.mem_cons.mp hy with rfl | hy
      · refine Nat.le_trans ?_ h2
        split <;> omega
      · exact h3 y hy

/-- C5: `newest_note` returns `none` exactly when no `.md` file has a
parsable filename timestamp, and otherwise returns a file whose parsed
timestamp is maximal among those files. -/
theorem newest_note_spec (dir : List NoteFile) :
    (newest_note dir = none ↔
      (dir.filter (fun f => isMd f)).filter (fun f => (_parse_ts f.name).isSome) = []) ∧
    (∀ f, newest_note dir = some f →
      f ∈ (dir.filter (fun f => isMd f)).filter (fun f => (_parse_ts f.name).isSome) ∧
      ∀ g ∈ (dir.filter (fun f => isMd f)).filter (fun f => (_parse_ts f.name).isSome),
        tsOf g ≤ tsOf f) := by
  unfold newest_note
  cases hv : (dir.filter (fun f => isMd f)).filter (fun f => (_parse_ts f.name).isSome) with
  | nil => exact ⟨by simp, by simp⟩
  | cons x xs =>
    constructor
    · simp
    · intro f hf
      simp only [Option.some.injEq] at hf
      subst hf
      obtain ⟨h1, h2, h3⟩ := pymax_spec tsOf xs x
      constructor
      · rcases h1 with h | h
        · rw [h]
          exact List.mem_cons_self x xs
        · exact List.mem_cons_of_mem _ h
      · intro g hg
        rcases List.mem_cons.mp hg with rfl | hg
        · exact h2
        · exact h3 g hg

theorem newest_note_spec_witness :
    ⟨"2024-01-01_11-00-00.md", "beta"⟩ ∈
      ([⟨"2024-01-01_10-00-00.md", "alpha"⟩, ⟨"2024-01-01_11-00-00.md", "beta"⟩] |>.filter
        (fun f => isMd f) |>.filter (fun f => (_parse_ts f.name).isSome)) ∧
    ∀ g ∈ ([⟨"2024-01-01_10-00-00.md", "alpha"⟩, ⟨"2024-01-01_11-00-00.md", "beta"⟩] |>.filter
        (fun f => isMd f) |>.filter (fun f => (_parse_ts f.name).isSome)),
      tsOf g ≤ tsOf ⟨"2024-01-01_11-00-00.md", "beta"⟩ :=
  (newest_note_spec [⟨"2024-01-01_10-00-00.md", "alpha"⟩,
    ⟨"2024-01-01_11-00-00.md", "beta"⟩]).2 ⟨"2024-01-01_11-00-00.md", "beta"⟩ (by decide)

/-- The result of one `input()` call inside the capture loop: a line, or an
`EOFError`/`KeyboardInterrupt`. -/
inductive LineRead where
  | ok (s : String) : LineRead
  | intr : LineRead
deriving DecidableEq

/-- How the multi-line collection loop ends: `break` after a confirmed blank
line, or the `except (EOFError, KeyboardInterrupt)` handler. -/
inductive CapOutcome where
  | completed (lines : List String) : CapOutcome
  | interrupted (lines : List String) : CapOutcome
deriving DecidableEq

/-- The collection loop (stampt.py lines 351-366).  `ls` is the stream of
`input()` results and `ks` the stream of `prompt_blank_line_action()` results
consulted when a blank line is read (an exhausted prompt stream yields
`"enter"`, the prompt's input-failure mapping).  A non-blank line is appended
verbatim; at a blank line the action `"ctrlx"` appends one empty line and
resumes, any other action ends collection without adding the blank line; an
end-of-input or interrupt ends the loop through the exception handler. -/
def tui_collect (acc : List String) : List LineRead → List String → CapOutcome
  | [], _ => .interrupted acc
  | .intr :: _, _ => .interrupted acc
  | .ok s :: ls, ks =>
    if pystrip s = "" then
      match ks with
      | [] => .completed acc
      | a :: ks' =>
        if a = "ctrlx" then tui_collect (acc ++ [""]) ls ks' else .completed acc
    else
      tui_collect (acc ++ [s]) ls ks

/-- What the main loop persists for a finished capture (stampt.py lines
361-375): on interrupt, accumulated lines are saved as a draft; on normal
completion, accumulated lines are saved; an empty accumulation saves
nothing.  The note text is `"\n".join(lines)`. -/
def handleOutcome (fs : List String) (ts : String) : CapOutcome → Option SaveResult
  | .interrupted lines =>
    if lines.isEmpty then none
    else some (save_note fs ts (String.intercalate "\n" lines))
  | .completed lines =>
    if lines.isEmpty then none
    else some (save_note fs ts (String.intercalate "\n" lines))

/-- C7: at a blank line, an `"enter"` decision terminates collection without
adding the blank line, and a `"ctrlx"` decision appends one empty line and
resumes collecting; consequently the input lines
`["first", "", ctrlx, "second", "", enter]` produce a saved file whose
content is exactly `"first\n\nsecond\n"`. -/
theorem capture_blank_line_decision :
    (∀ (acc : List String) (s : String) (ls : List LineRead) (ks : List String),
      pystrip s = "" →
        tui_collect acc (.ok s :: ls) ("enter" :: ks) = .completed acc) ∧
    (∀ (acc : List String) (s : String) (ls : List LineRead) (ks : List String),
      pystrip s = "" →
        tui_collect acc (.ok s :: ls) ("ctrlx" :: ks) = tui_collect (acc ++ [""]) ls ks) ∧
    tui_collect [] [.ok "first", .ok "", .ok "second", .ok ""] ["ctrlx", "enter"] =
      .completed ["first", "", "second"] ∧
    handleOutcome [] "t" (tui_collect [] [.ok "first", .ok "", .ok "second", .ok ""]
      ["ctrlx", "enter"]) = some (.saved "t.md" "first\n\nsecond\n") := by
  refine ⟨?_, ?_, by decide, by decide⟩
  · intro acc s ls ks h
    unfold tui_collect
    rw [if_pos h]
    simp
  · intro acc s ls ks h
    conv =>
      lhs
      rw [tui_collect]
    rw [if_pos h]
    simp

theorem capture_blank_line_decision_witness :
    tui_collect [] [LineRead.ok " ", LineRead.ok "x"] ["enter", "go"] =
      CapOutcome.completed [] ∧
    tui_collect [] [LineRead.ok "", LineRead.ok "x"] ["ctrlx", "go"] =
      tui_collect ([] ++ [""]) [LineRead.ok "x"] ["go"] :=
  ⟨capture_blank_line_decision.1 [] " " [LineRead.ok "x"] ["go"] (by decide),
   capture_blank_line_decision.2.1 [] "" [LineRead.ok "x"] ["go"] (by decide)⟩

/-- C8: an end-of-input or interrupt while collecting interrupts the loop
with the lines accumulated so far, and the driver then saves them, joined
with newlines, as a draft exactly when at least one line was accumulated;
with no accumulated lines nothing is saved. -/
theorem capture_interrupt_draft :
    (∀ (acc : List String) (ls : List LineRead) (ks : List String),
      tui_collect acc (.intr :: ls) ks = .interrupted acc) ∧
    (∀ (acc : List String) (ks : List String),
      tui_collect acc [] ks = .interrupted acc) ∧
    (∀ (fs : List String) (ts : String) (acc : List String), acc ≠ [] →
      handleOutcome fs ts (.interrupted acc) =
        some (save_note fs ts (String.intercalate "\n" acc))) ∧
    (∀ (fs : List String) (ts : String), handleOutcome fs ts (.interrupted []) = none) := by
  refine ⟨fun acc ls ks => rfl, fun acc ks => rfl, ?_, fun fs ts => rfl⟩
  intro fs ts acc h
  have he : acc.isEmpty = false := by simpa [List.isEmpty_iff] using h
  simp [handleOutcome, he]

theorem capture_interrupt_draft_witness :
    handleOutcome [] "t" (CapOutcome.interrupted ["draft"]) =
      some (save_note [] "t" (String.intercalate "\n" ["draft"])) :=
  capture_interrupt_draft.2.2.1 [] "t" ["draft"] (by decide)

/-- Input to the line-based fallback prompt: a typed response line, or an
`EOFError`/`KeyboardInterrupt` while answering. -/
inductive FallbackRead where
  | resp (s : String) : FallbackRead
  | intr : FallbackRead
deriving DecidableEq

/-- The `input()` fallback branch of `prompt_blank_line_action` (stampt.py
lines 169-175): a stripped, lowercased response equal to `"x"` means keep
typing; anything else, and any end-of-input or interrupt, means save. -/
def prompt_fallback : FallbackRead → String
  | .resp s => if pylower (pystrip s) = "x" then "ctrlx" else "enter"
  | .intr => "enter"

/-- Outcome of the `try`-guarded region of the raw-terminal branch
(`tty.setraw(fd)` and `sys.stdin.read(1)`): the string read, or an
`OSError`/`termios.error` raised inside the `try`. -/
inductive RawRead where
  | chars (s : String) : RawRead
  | ioError : RawRead
deriving DecidableEq

/-- Outcome of one of the unguarded termios calls of the raw branch —
`termios.tcgetattr(fd)` on line 179 (before the `try`) or the `finally:`
`termios.tcsetattr(...)` on line 189: success, or a raised
`termios.error`. -/
inductive TermiosCall where
  | ok : TermiosCall
  | err : TermiosCall
deriving DecidableEq

/-- How a call of the raw-terminal branch ends: a returned action string, or
an exception propagating out of `prompt_blank_line_action` (the capture
loop's `except (EOFError, KeyboardInterrupt)` does not catch
`termios.error`). -/
inductive PromptResult where
  | returns (s : String) : PromptResult
  | raises : PromptResult
deriving DecidableEq

/-- The `try`/`except` body of the raw branch (stampt.py lines 180-187):
reading the Ctrl-X character (`"\x18"`) means keep typing; any other read
result, and any `OSError`/`termios.error` raised inside the `try`, means
save. -/
def prompt_raw_body : RawRead → String
  | .chars s => if s = "\x18" then "ctrlx" else "enter"
  | .ioError => "enter"

/-- The whole raw-terminal branch of `prompt_blank_line_action` (stampt.py
lines 177-189).  `old = termios.tcgetattr(fd)` runs before the `try`, so a
`termios.error` there escapes the function; the `finally:`
`termios.tcsetattr(fd, TCSADRAIN, old)` runs last and a `termios.error`
there likewise escapes, superseding any value being returned. -/
def prompt_raw (getAttr : TermiosCall) (rd : RawRead) (setAttr : TermiosCall) :
    PromptResult :=
  match getAttr with
  | .err => .raises
  | .ok =>
    match setAttr with
    | .err => .raises
    | .ok => .returns (prompt_raw_body rd)

/-- C10 counterexample: a terminal I/O error at the decision point does not
always yield the confirm outcome — a `termios.error` from `tcgetattr`
(line 179, before the `try`), or from the `finally` `tcsetattr` (line 189),
makes the raw branch raise instead of returning either outcome. -/
theorem prompt_raw_error_escapes :
    prompt_raw TermiosCall.err (RawRead.chars "a") TermiosCall.ok = PromptResult.raises ∧
    prompt_raw TermiosCall.ok (RawRead.chars "a") TermiosCall.err = PromptResult.raises ∧
    prompt_raw TermiosCall.err (RawRead.chars "a") TermiosCall.ok ≠
      PromptResult.returns "enter" ∧
    prompt_raw TermiosCall.err (RawRead.chars "a") TermiosCall.ok ≠
      PromptResult.returns "ctrlx" := by
  refine ⟨rfl, rfl, ?_, ?_⟩ <;> decide

/-- C10 (amended): the fallback branch always returns one of exactly the two
outcomes `"enter"`/`"ctrlx"` and maps end-of-input or interrupt while
answering to `"enter"`; the raw branch, whenever it returns at all, returns
one of exactly those two outcomes, and an I/O error inside its guarded
setraw/read region yields `"enter"` provided the surrounding unguarded
termios calls succeed — but a `termios.error` from the `tcgetattr` before
the `try` or from the `finally` `tcsetattr` propagates out of the function
instead of producing an outcome. -/
theorem prompt_outcomes_amended :
    (∀ r, prompt_fallback r = "enter" ∨ prompt_fallback r = "ctrlx") ∧
    prompt_fallback FallbackRead.intr = "enter" ∧
    (∀ (g : TermiosCall) (rd : RawRead) (t : TermiosCall) (a : String),
      prompt_raw g rd t = PromptResult.returns a → a = "enter" ∨ a = "ctrlx") ∧
    prompt_raw TermiosCall.ok RawRead.ioError TermiosCall.ok =
      PromptResult.returns "enter" ∧
    (∀ rd : RawRead, prompt_raw TermiosCall.err rd TermiosCall.ok =
      PromptResult.raises) ∧
    (∀ rd : RawRead, prompt_raw TermiosCall.ok rd TermiosCall.err =
      PromptResult.raises) := by
  refine ⟨?_, rfl, ?_, rfl, fun rd => rfl, fun rd => rfl⟩
  · intro r
    cases r with
    | resp s =>
      by_cases hx : pylower (pystrip s) = "x"
      · right
        simp [prompt_fallback, hx]
      · left
        simp [prompt_fallback, hx]
    | intr =>
      left
      rfl
  · intro g rd t a h
    cases g with
    | err => exact absurd h (by simp [prompt_raw])
    | ok =>
      cases t with
      | err => exact absurd h (by simp [prompt_raw])
      | ok =>
        have ha : a = prompt_raw_body rd := by
          have h' : PromptResult.returns (prompt_raw_body rd) = PromptResult.returns a := h
          simpa [PromptResult.returns.injEq] using h'.symm
        subst ha
        cases rd with
        | chars s =>
          by_cases hx : s = "\x18"
          · right
            simp [prompt_raw_body, hx]
          · left
            simp [prompt_raw_body, hx]
        | ioError =>
          left
          rfl

theorem prompt_outcomes_amended_witness :
    ("enter" : String) = "enter" ∨ ("enter" : String) = "ctrlx" :=
  prompt_outcomes_amended.2.2.1 TermiosCall.ok (RawRead.chars "a") TermiosCall.ok
    "enter" (by decide)

theorem pystrip_head {s : String} {a : Char} (h : (pystrip s).data.head? = some a) :
    isPySpace a = false := by
  replace h : (((s.data.dropWhile isPySpace).reverse.dropWhile
      isPySpace).reverse).head? = some a := h
  rw [List.head?_reverse] at h
  obtain ⟨W, hW⟩ :
      ((s.data.dropWhile isPySpace).reverse.dropWhile isPySpace) <:+
        (s.data.dropWhile isPySpace).reverse :=
    List.dropWhile_suffix isPySpace
  have hlast : ((s.data.dropWhile isPySpace).reverse).getLast? = some a := by
    rw [← hW, List.getLast?_append, h]
    rfl
  rw [List.getLast?_reverse] at hlast
  have hd := List.head?_dropWhile_not isPySpace s.data
  rw [hlast] at hd
  exact hd

theorem pystrip_last {s : String} {a : Char} (h : (pystrip s).data.getLast? = some a) :
    isPySpace a = false := by
  replace h : (((s.data.dropWhile isPySpace).reverse.dropWhile
      isPySpace).reverse).getLast? = some a := h
  rw [List.getLast?_reverse] at h
  have hd := List.head?_dropWhile_not isPySpace (s.data.dropWhile isPySpace).reverse
  rw [h] at hd
  exact hd

/-- C9: every file `save_note` writes has content `body ++ "\n"` with `body`
non-empty, starting and ending with a non-whitespace character: exactly one
trailing newline, preceded by a non-whitespace character, and no leading
whitespace.  Hence blank lines at the very start or very end of a captured
note are stripped before writing and only interior blank lines survive, as
the concrete capture text with leading and trailing blank lines shows. -/
theorem saved_content_shape (fs : List String) (ts text p c : String)
    (h : save_note fs ts text = .saved p c) :
    (∃ body : List Char, c.data = body ++ ['\n'] ∧ body ≠ [] ∧
      (∀ a, body.head? = some a → isPySpace a = false) ∧
      (∀ a, body.getLast? = some a → isPySpace a = false)) ∧
    save_note [] ts "\n\nfirst\n\nsecond\n\n" =
      SaveResult.saved (ts ++ ".md") "first\n\nsecond\n" := by
  constructor
  · unfold save_note at h
    by_cases hg : text = "" ∨ pystrip text = ""
    · rw [if_pos hg] at h
      exact absurd h (by simp)
    · rw [if_neg hg] at h
      cases hf : _free_filename fs ts with
      | none => rw [hf] at h; exact absurd h (by simp)
      | some q =>
        rw [hf] at h
        simp only [SaveResult.saved.injEq] at h
        obtain ⟨hp, hc⟩ := h
        refine ⟨(pystrip text).data, ?_, ?_, ?_, ?_⟩
        · rw [← hc, String.data_append]
        · intro hnil
          apply hg
          right
          apply String.ext
          exact hnil
        · intro a ha
          exact pystrip_head ha
        · intro a ha
          exact pystrip_last ha
  · have h1 : pystrip "\n\nfirst\n\nsecond\n\n" = "first\n\nsecond" := by decide
    have h2 : _free_filename [] ts = some (ts ++ ".md") := by
      unfold _free_filename
      rw [if_neg (by simp)]
    unfold save_note
    rw [if_neg (by decide), h2, h1]
    rfl

theorem saved_content_shape_witness :
    (∃ body : List Char, ("a\n" : String).data = body ++ ['\n'] ∧ body ≠ [] ∧
      (∀ a, body.head? = some a → isPySpace a = false) ∧
      (∀ a, body.getLast? = some a → isPySpace a = false)) ∧
    save_note [] "t" "\n\nfirst\n\nsecond\n\n" =
      SaveResult.saved ("t" ++ ".md") "first\n\nsecond\n" :=
  saved_content_shape [] "t" "a" "t.md" "a\n" (by decide)

theorem toString_digits_three (n : Nat) (hl : 100 ≤ n) (h : n < 1000) :
    toString n = String.mk [Nat.digitChar (n / 100), Nat.digitChar (n / 10 % 10),
      Nat.digitChar (n % 10)] := by
  show Nat.repr n = _
  unfold Nat.repr Nat.toDigits
  rw [show n + 1 = n - 2 + 3 by omega, toDigitsCore_three n hl h]
  rfl

/-- Decimal reading of a digit string, used to invert `toString` on the
version indices `1..999`. -/
def strVal (s : String) : Nat := s.data.foldl (fun a c => 10 * a + dval c) 0

theorem strVal_toString (n : Nat) (h : n < 1000) : strVal (toString n) = n := by
  by_cases h1 : n < 10
  · rw [toString_digits_one n h1]
    show 10 * 0 + dval (Nat.digitChar n) = n
    rw [dval_digitChar n h1]
    omega
  · by_cases h2 : n < 100
    · rw [toString_digits_two n (by omega) h2]
      show 10 * (10 * 0 + dval (Nat.digitChar (n / 10))) + dval (Nat.digitChar (n % 10)) = n
      rw [dval_digitChar _ (by omega), dval_digitChar _ (by omega)]
      omega
    · rw [toString_digits_three n (by omega) h]
      show 10 * (10 * (10 * 0 + dval (Nat.digitChar (n / 100))) +
        dval (Nat.digitChar (n / 10 % 10))) + dval (Nat.digitChar (n % 10)) = n
      rw [dval_digitChar _ (by omega), dval_digitChar _ (by omega),
        dval_digitChar _ (by omega)]
      omega

theorem toString_length_pos (i : Nat) (hi : i < 1000) : 1 ≤ (toString i).length := by
  by_cases h1 : i < 10
  · rw [toString_digits_one i h1]
    exact Nat.le_refl 1
  · by_cases h2 : i < 100
    · rw [toString_digits_two i (by omega) h2]
      exact Nat.le_succ 1
    · rw [toString_digits_three i (by omega) hi]
      show (1 : Nat) ≤ 3
      omega

theorem vname_inj {base : String} {i j : Nat} (hi : i < 1000) (hj : j < 1000)
    (h : vname base i = vname base j) : i = j := by
  unfold vname at h
  have hd := congrArg String.data h
  simp only [String.data_append] at hd
  have h1 := List.append_cancel_right hd
  have h2 := List.append_cancel_left h1
  have h3 : toString i = toString j := String.ext h2
  have hvi := strVal_toString i hi
  rw [h3, strVal_toString j hj] at hvi
  omega

theorem vname_ne_base {base : String} {i : Nat} (hi : i < 1000) :
    vname base i ≠ base ++ ".md" := by
  intro h
  have hl := congrArg String.length h
  simp only [vname, String.length_append] at hl
  have hp := toString_length_pos i hi
  have e1 : ("_v" : String).length = 2 := rfl
  have e2 : (".md" : String).length = 3 := rfl
  omega

theorem contains_iff {l : List String} {a : String} : l.contains a = true ↔ a ∈ l :=
  List.elem_iff

theorem contains_false_iff {l : List String} {a : String} :
    l.contains a = false ↔ a ∉ l := by
  rw [← contains_iff]
  cases l.contains a <;> simp

theorem find?_range'_first (p : Nat → Bool) (k : Nat) :
    ∀ (n a : Nat), a ≤ k → k < a + n → p k = true →
      (∀ j, a ≤ j → j < k → p j = false) →
      (List.range' a n).find? p = some k := by
  intro n
  induction n with
  | zero =>
    intro a h1 h2 _ _
    exfalso
    omega
  | succ n ih =>
    intro a ha hk hpk hprev
    rw [List.range'_succ]
    by_cases hak : a = k
    · subst hak
      rw [List.find?_cons, hpk]
    · have hpa : p a = false := hprev a (Nat.le_refl a) (by omega)
      rw [List.find?_cons, hpa]
      exact ih (a + 1) (by omega) (by omega) hpk (fun j h1 h2 => hprev j (by omega) h2)

theorem free_filename_first {fs : List String} {base : String} {i : Nat}
    (hb : fs.contains (base ++ ".md") = true)
    (h1 : 1 ≤ i) (h2 : i ≤ 999)
    (hfree : fs.contains (vname base i) = false)
    (hprev : ∀ j, 1 ≤ j → j < i → fs.contains (vname base j) = true) :
    _free_filename fs base = some (vname base i) := by
  unfold _free_filename
  rw [if_pos hb]
  rw [find?_range'_first (fun j => !fs.contains (vname base j)) i 999 1 h1 (by omega)
    (by simp only [hfree, Bool.not_false])
    (fun j hj1 hj2 => by simp only [hprev j hj1 hj2, Bool.not_true])]

theorem free_filename_exhausted {fs : List String} {base : String}
    (hb : fs.contains (base ++ ".md") = true)
    (hall : ∀ i, 1 ≤ i → i ≤ 999 → fs.contains (vname base i) = true) :
    _free_filename fs base = none := by
  unfold _free_filename
  rw [if_pos hb]
  have hnone : (List.range' 1 999).find? (fun j => !fs.contains (vname base j)) = none := by
    rw [List.find?_eq_none]
    intro x hx
    rw [List.mem_range'] at hx
    obtain ⟨u, hu, rfl⟩ := hx
    have hm : vname base (1 + u) ∈ fs := by
      have := contains_iff.mp (hall (1 + 1 * u) (by omega) (by omega))
      rwa [show 1 + 1 * u = 1 + u by omega] at this
    simp [hm]
  rw [hnone]

/-- Repeatedly calling `_free_filename` for the same base name within one
second, creating each returned file: `allocMany base n` is the list of file
names existing after `n` such calls into an initially empty directory. -/
def allocMany (base : String) : Nat → List String
  | 0 => []
  | n + 1 =>
    match _free_filename (allocMany base n) base with
    | some p => p :: allocMany base n
    | none => allocMany base n

theorem mem_expected {base : String} {n : Nat} {x : String} :
    x ∈ ((List.range' 1 n).map (vname base)).reverse ++ [base ++ ".md"] ↔
      (∃ j, 1 ≤ j ∧ j ≤ n ∧ x = vname base j) ∨ x = base ++ ".md" := by
  rw [List.mem_append, List.mem_reverse, List.mem_map]
  constructor
  · rintro (⟨j, hj, rfl⟩ | hx)
    · rw [List.mem_range'] at hj
      obtain ⟨u, hu, rfl⟩ := hj
      exact Or.inl ⟨1 + 1 * u, by omega, by omega, rfl⟩
    · right
      simpa using hx
  · rintro (⟨j, h1, h2, rfl⟩ | rfl)
    · left
      refine ⟨j, ?_, rfl⟩
      rw [List.mem_range']
      exact ⟨j - 1, by omega, by omega⟩
    · right
      simp

theorem free_filename_expected (base : String) (n : Nat) (hn : n ≤ 998) :
    _free_filename (((List.range' 1 n).map (vname base)).reverse ++ [base ++ ".md"]) base =
      some (vname base (n + 1)) := by
  apply free_filename_first
  · rw [contains_iff, mem_expected]
    exact Or.inr rfl
  · omega
  · omega
  · rw [contains_false_iff, mem_expected]
    rintro (⟨j, h1, h2, hj⟩ | hx)
    · have := vname_inj (by omega : n + 1 < 1000) (by omega : j < 1000) hj
      omega
    · exact vname_ne_base (by omega : n + 1 < 1000) hx
  · intro j hj1 hj2
    rw [contains_iff, mem_expected]
    exact Or.inl ⟨j, hj1, by omega, rfl⟩

theorem allocMany_eq (base : String) :
    ∀ n, n ≤ 999 → allocMany base (n + 1) =
      ((List.range' 1 n).map (vname base)).reverse ++ [base ++ ".md"] := by
  intro n
  induction n with
  | zero => intro _; rfl
  | succ n ih =>
    intro hn
    have hE := ih (by omega)
    have hfirst : _free_filename (allocMany base (n + 1)) base =
        some (vname base (n + 1)) := by
      rw [hE]
      exact free_filename_expected base n (by omega)
    have step : allocMany base (n + 1 + 1) =
        vname base (n + 1) :: allocMany base (n + 1) := by
      show (match _free_filename (allocMany base (n + 1)) base with
        | some p => p :: allocMany base (n + 1)
        | none => allocMany base (n + 1)) = vname base (n + 1) :: allocMany base (n + 1)
      rw [hfirst]
    rw [step, hE, List.range'_concat, List.map_append, List.reverse_append,
      show 1 + 1 * n = n + 1 by omega]
    rfl

/-- C2 counterexample: with the same base name allocated and its file created
999 times within one second, the 1000th call still succeeds — it returns the
candidate `base_v999.md` rather than signalling the "too many versions"
error (the candidate pool is `base.md` plus `base_v1.md` … `base_v999.md`,
1000 names in all). -/
theorem free_filename_thousandth_call_succeeds :
    _free_filename (allocMany "b" 999) "b" = some (vname "b" 999) ∧
    _free_filename (allocMany "b" 999) "b" ≠ none := by
  have h : _free_filename (allocMany "b" 999) "b" = some (vname "b" 999) := by
    rw [allocMany_eq "b" 998 (by omega)]
    exact free_filename_expected "b" 998 (by omega)
  exact ⟨h, by rw [h]; simp⟩

/-- C2 (amended): `_free_filename` returns `base.md` when that name is free;
otherwise it probes `base_v1.md`, `base_v2.md`, … sequentially up to 999
attempts and returns the first non-existing candidate; when all are taken it
signals the "too many versions" error.  Called repeatedly in the same second
for the same base name, each returned file then being created, every one of
the first 1000 calls succeeds and the error is signalled on the 1001st
call. -/
theorem free_filename_spec (base : String) :
    (∀ fs : List String, fs.contains (base ++ ".md") = false →
      _free_filename fs base = some (base ++ ".md")) ∧
    (∀ (fs : List String) (i : Nat), fs.contains (base ++ ".md") = true →
      1 ≤ i → i ≤ 999 → fs.contains (vname base i) = false →
      (∀ j, 1 ≤ j → j < i → fs.contains (vname base j) = true) →
      _free_filename fs base = some (vname base i)) ∧
    (∀ fs : List String, fs.contains (base ++ ".md") = true →
      (∀ i, 1 ≤ i → i ≤ 999 → fs.contains (vname base i) = true) →
      _free_filename fs base = none) ∧
    (∀ n, n ≤ 999 → ∃ p, _free_filename (allocMany base n) base = some p) ∧
    _free_filename (allocMany base 1000) base = none := by
  refine ⟨?_, ?_, ?_, ?_, ?_⟩
  · intro fs hb
    unfold _free_filename
    rw [if_neg (by rw [hb]; simp)]
  · intro fs i hb h1 h2 hfree hprev
    exact free_filename_first hb h1 h2 hfree hprev
  · intro fs hb hall
    exact free_filename_exhausted hb hall
  · intro n hn
    cases n with
    | zero =>
      refine ⟨base ++ ".md", ?_⟩
      show _free_filename [] base = some (base ++ ".md")
      unfold _free_filename
      rw [if_neg (by simp)]
    | succ m =>
      rw [allocMany_eq base m (by omega)]
      exact ⟨vname base (m + 1), free_filename_expected base m (by omega)⟩
  · rw [allocMany_eq base 999 (Nat.le_refl _)]
    apply free_filename_exhausted
    · rw [contains_iff, mem_expected]
      exact Or.inr rfl
    · intro i h1 h2
      rw [contains_iff, mem_expected]
      exact Or.inl ⟨i, h1, h2, rfl⟩

theorem free_filename_spec_witness :
    _free_filename [] "b" = some ("b" ++ ".md") ∧
    _free_filename ["b.md"] "b" = some (vname "b" 1) ∧
    (∃ p, _free_filename (allocMany "b" 0) "b" = some p) :=
  ⟨(free_filename_spec "b").1 [] (by decide),
   (free_filename_spec "b").2.1 ["b.md"] 1 (by decide) (by decide) (by decide) (by decide)
     (fun j h1 h2 => absurd h2 (by omega)),
   (free_filename_spec "b").2.2.2.1 0 (by omega)⟩

end Stampt
